import Mathlib

/-!
# Verification of the Tempo timesheet-logging tool

Shallow embedding of `timesheet_entry/timesheet_tool.py` (class
`LogTimeToTempoTool`): date resolution, the automatic work distribution,
the remote-call layer and the `_run` orchestrator, together with proofs of
the specified properties.

Modelling conventions:
* Python `datetime` values are modelled by their day index (days since
  1970-01-01, an `Int`); `datetime.weekday()` of day `z` is `(z + 3).fmod 7`
  since 1970-01-01 was a Thursday (Monday = 0).
* Python floor division `//` and `%` are `Int.fdiv` / `Int.fmod`.
* The external `dateparser.parse` library call is an oracle
  `parse : String → Option Int` (`none` models Python `None`).
* Each HTTP call is an oracle in `Env`, returning either a raised
  transport-level exception (`Except.error`, the exception message) or an
  HTTP response; non-2xx statuses are data in the response.  Raised Python
  exceptions anywhere are modelled as `Except.error` results.
* Executed remote calls are recorded in an event trace (`St.trace`).
-/

/-! ## String utilities (Python `str` operations used by the tool) -/

/-- Is `needle` a prefix of `hay` (over character lists)? -/
def startsWithL : List Char → List Char → Bool
  | [], _ => true
  | _ :: _, [] => false
  | a :: as, b :: bs => a = b && startsWithL as bs

/-- Auxiliary recursion for `strIn`. -/
def strContainsAux (needle : List Char) : List Char → Bool
  | [] => startsWithL needle []
  | c :: t => startsWithL needle (c :: t) || strContainsAux needle t

/-- Python `needle in hay` for strings: substring containment. -/
def strIn (needle hay : String) : Bool :=
  strContainsAux needle.data hay.data

/-- Characters removed by Python `str.strip()`. -/
def isSpaceChar (c : Char) : Bool :=
  c = ' ' || c = '\t' || c = '\n' || c = '\r' || c = Char.ofNat 11 || c = Char.ofNat 12

/-- Drop leading whitespace characters. -/
def dropLeadingSpace : List Char → List Char
  | [] => []
  | c :: t => if isSpaceChar c then dropLeadingSpace t else c :: t

/-- Python `str.strip()` over character lists. -/
def trimChars (l : List Char) : List Char :=
  ((dropLeadingSpace ((dropLeadingSpace l).reverse)).reverse)

/-- `date_range.lower().replace("_", " ").strip()` from `resolve_dates`
(ASCII lowering; the literals compared against are ASCII). -/
def normRange (s : String) : String :=
  String.mk (trimChars ((s.data.map Char.toLower).map fun c => if c = '_' then ' ' else c))

/-- Python `sep.join(items)`. -/
def joinWith (sep : String) : List String → String
  | [] => ""
  | [x] => x
  | x :: y :: t => x ++ sep ++ joinWith sep (y :: t)

/-! ## Calendar (only what `strftime` / `weekday` / `timedelta` need) -/

/-- Two-digit zero padding (`strftime` `%m`, `%d`, `%H`, `%M`, `%S`). -/
def pad2 (n : Nat) : String :=
  if n < 10 then "0" ++ toString n else toString n

/-- Two-digit zero padding for the (nonnegative in our uses) `Int` fields
of a civil date. -/
def pad2i (n : Int) : String :=
  if n < 10 then "0" ++ toString n else toString n

/-- Four-digit zero padding for the year (`strftime` `%Y`). -/
def pad4i (n : Int) : String :=
  if n < 10 then "000" ++ toString n
  else if n < 100 then "00" ++ toString n
  else if n < 1000 then "0" ++ toString n
  else toString n

/-- Gregorian (year, month, day) of a day index (days since 1970-01-01),
by the standard civil-from-days computation with floor division. -/
def civilFromDays (z0 : Int) : Int × Int × Int :=
  let z := z0 + 719468
  let era := z.fdiv 146097
  let doe := z - era * 146097
  let yoe := (doe - doe.fdiv 1460 + doe.fdiv 36524 - doe.fdiv 146096).fdiv 365
  let y := yoe + era * 400
  let doy := doe - (365 * yoe + yoe.fdiv 4 - yoe.fdiv 100)
  let mp := (5 * doy + 2).fdiv 153
  let d := doy - (153 * mp + 2).fdiv 5 + 1
  let m := if mp < 10 then mp + 3 else mp - 9
  (if m ≤ 2 then y + 1 else y, m, d)

/-- `strftime('%Y-%m-%d')` of a day index. -/
def fmtDate (z : Int) : String :=
  let ymd := civilFromDays z
  pad4i ymd.1 ++ "-" ++ pad2i ymd.2.1 ++ "-" ++ pad2i ymd.2.2

/-- Python `datetime.weekday()` (Monday = 0) of a day index. -/
def weekdayOf (z : Int) : Int :=
  (z + 3).fmod 7

/-- The Monday–Friday dates of the week of `today`
(`start = today - timedelta(days=today.weekday())`, then five days). -/
def monFri (today : Int) : List String :=
  (List.range 5).map fun i : Nat => fmtDate (today - weekdayOf today + (i : Int))

/-- Monday–Friday of the following week
(`start = today + timedelta(days=(7 - today.weekday()))`). -/
def nextMonFri (today : Int) : List String :=
  (List.range 5).map fun i : Nat => fmtDate (today + (7 - weekdayOf today) + (i : Int))

/-- Monday–Friday of the previous week
(`start = today - timedelta(days=(today.weekday() + 7))`). -/
def lastMonFri (today : Int) : List String :=
  (List.range 5).map fun i : Nat => fmtDate (today - (weekdayOf today + 7) + (i : Int))

/-! ## `resolve_dates` -/

/-- Python truthiness of an `Optional[str]`: `None` and `""` are falsy. -/
def truthy : Option String → Bool
  | none => false
  | some s => if s = "" then false else true

/-- `LogTimeToTempoTool.resolve_dates`.  `today` is the day index of
`datetime.today()`; `parse` is the `dateparser.parse` oracle.  An
`Except.error` is a raised `ValueError`.

Faithful quirks of the source:
* the first and fourth branches test membership in a two-string tuple;
* the second branch is `date_range_lower in ("full_week" or "full_week")`,
  i.e. substring containment in the single string `"full_week"`;
* the third branch is `date_range_lower in ("next_week" "next week")`,
  i.e. substring containment in the concatenation `"next_weeknext week"`;
* the generic fallthrough parses the original `date_range`, not the
  normalized one. -/
def resolve_dates (today : Int) (parse : String → Option Int)
    (work_date date_range : Option String) : Except String (List String) :=
  if truthy date_range then
    let dr := date_range.getD ""
    let low := normRange dr
    if low = "this_week" ∨ low = "this week" then Except.ok (monFri today)
    else if strIn low "full_week" then Except.ok (monFri today)
    else if strIn low "next_weeknext week" then Except.ok (nextMonFri today)
    else if low = "last_week" ∨ low = "last week" then Except.ok (lastMonFri today)
    else
      match parse dr with
      | none => Except.error ("Could not parse date_range: " ++ dr)
      | some z => Except.ok [fmtDate z]
  else if truthy work_date then
    let wd := work_date.getD ""
    match parse wd with
    | none => Except.error ("Could not parse work_date: " ++ wd)
    | some z => Except.ok [fmtDate z]
  else Except.ok [fmtDate today]

/-! ## Remote-call layer

The four HTTP interactions are oracles.  Each oracle is indexed by the
number of calls already made to the same endpoint, so distinct calls can
behave differently (in the source, the search is re-issued fresh for every
date).  `Except.error` models a transport-level exception raised by
`requests`; business failures (non-2xx statuses) are data in the response
records, exactly as the source inspects `status_code` and `text`. -/

/-- One work item from the search response (`issue["key"]`, `issue["id"]`). -/
structure Issue where
  key : String
  id : String
  deriving Repr, DecidableEq

/-- Response of `GET /rest/api/3/myself`: status code, raw body text, and the
parsed `accountId` field. -/
structure GetResp where
  status : Nat
  text : String
  accountId : String
  deriving Repr, DecidableEq

/-- Response of `GET /rest/api/3/issue/{key}`: status, body text, parsed `id`. -/
structure IssueResp where
  status : Nat
  text : String
  id : String
  deriving Repr, DecidableEq

/-- Response of `GET /rest/api/3/search`: status, body text, and the parsed
`issues` list (`response.json().get("issues", [])`). -/
structure SearchResp where
  status : Nat
  text : String
  issues : List Issue
  deriving Repr, DecidableEq

/-- Response of `POST https://api.tempo.io/4/worklogs`: status and body text. -/
structure PostResp where
  status : Nat
  text : String
  deriving Repr, DecidableEq

/-- The JSON payload built by `post_worklog`. -/
structure WorklogPayload where
  issueKey : String
  issueId : String
  timeSpentSeconds : Int
  startDate : String
  startTime : String
  description : String
  authorAccountId : String
  deriving Repr, DecidableEq

/-- One executed remote call, recorded in the trace. -/
inductive Event where
  | getAccount
  | fetchIssue (key : String)
  | searchIssues
  | postWorklog (p : WorklogPayload)
  deriving Repr, DecidableEq

/-- Mutable context threaded through a run: per-endpoint call counters and
the trace of executed remote calls. -/
structure St where
  nIssue : Nat
  nSearch : Nat
  nPost : Nat
  trace : List Event
  deriving Repr, DecidableEq

/-- The initial context of a run. -/
def st0 : St := ⟨0, 0, 0, []⟩

/-- The remote world and the two floating-point computations the tool
performs, as oracles. -/
structure Env where
  /-- Outcome of `GET /rest/api/3/myself`. -/
  myself : Except String GetResp
  /-- Outcome of the `k`-th `GET /rest/api/3/issue/{key}` call. -/
  issue : Nat → String → Except String IssueResp
  /-- Outcome of the `k`-th `GET /rest/api/3/search` call. -/
  search : Nat → Except String SearchResp
  /-- Outcome of the `k`-th `POST /4/worklogs` call. -/
  post : Nat → WorklogPayload → Except String PostResp
  /-- `int((time_seconds / 3600) * 3600)`: the float round-trip performed by
  `_run` (`total_hours = time_seconds / 3600`) and `log_auto_for_date`
  (`total_seconds = int(total_hours * 3600)`), as an oracle since IEEE
  arithmetic is outside the integer model. -/
  secondsOfHours : Int → Int
  /-- `round(time_for_this_issue / 3600, 2)` rendered into the report line:
  display-only floating-point rounding, as an oracle. -/
  roundH : Int → String

/-- The payloads among a list of trace events, in order. -/
def postedPayloads (l : List Event) : List WorklogPayload :=
  l.filterMap fun e =>
    match e with
    | Event.postWorklog p => some p
    | _ => none

/-- A trace extension that contains no identity lookup and whose posted
payloads all carry `aid` as the author account. -/
def cleanExt (aid : String) (ext : List Event) : Prop :=
  ∀ e ∈ ext, e ≠ Event.getAccount ∧
    ∀ p, e = Event.postWorklog p → p.authorAccountId = aid

/-! ## The tool's remote operations -/

/-- `LogTimeToTempoTool.post_worklog`: builds the payload, posts it, and
returns a success or failure line (raising only on transport faults). -/
def post_worklog (env : Env) (st : St) (issue_key issue_id : String)
    (time_seconds : Int) (work_date work_start description account_id : String) :
    Except String String × St :=
  let payload : WorklogPayload :=
    ⟨issue_key, issue_id, time_seconds, work_date, work_start, description, account_id⟩
  let st1 : St := { st with nPost := st.nPost + 1, trace := st.trace ++ [Event.postWorklog payload] }
  match env.post st.nPost payload with
  | Except.error e => (Except.error e, st1)
  | Except.ok r =>
    if r.status = 200 ∨ r.status = 201 then
      (Except.ok ("Logged " ++ toString (time_seconds.fdiv 3600) ++ "h to " ++ issue_key), st1)
    else
      (Except.ok ("Failed for " ++ issue_key ++ ": " ++ r.text), st1)

/-- `LogTimeToTempoTool.get_account_id`: raises on a non-200 response. -/
def get_account_id (env : Env) (st : St) : Except String String × St :=
  let st1 : St := { st with trace := st.trace ++ [Event.getAccount] }
  match env.myself with
  | Except.error e => (Except.error e, st1)
  | Except.ok r =>
    if r.status ≠ 200 then
      (Except.error ("Failed to fetch account info: " ++ r.text), st1)
    else (Except.ok r.accountId, st1)

/-- `LogTimeToTempoTool.log_manual`: fetches the issue id by key (a non-200
response yields a failure line, not an exception) and posts one worklog. -/
def log_manual (env : Env) (st : St) (issue_key : String) (time_seconds : Int)
    (work_date account_id work_start description : String) :
    Except String String × St :=
  let st1 : St := { st with nIssue := st.nIssue + 1, trace := st.trace ++ [Event.fetchIssue issue_key] }
  match env.issue st.nIssue issue_key with
  | Except.error e => (Except.error e, st1)
  | Except.ok r =>
    if r.status ≠ 200 then
      (Except.ok ("Failed to fetch issue " ++ issue_key ++ ": " ++ r.text), st1)
    else
      post_worklog env st1 issue_key r.id time_seconds work_date work_start description account_id

/-! ## Automatic mode -/

/-- `strftime("%H:%M:%S")` of a number of seconds within a day. -/
def fmtTimeOfDay (s : Nat) : String :=
  pad2 (s / 3600) ++ ":" ++ pad2 (s % 3600 / 60) ++ ":" ++ pad2 (s % 60)

/-- Digit characters to a number (helper for `parseHMS`). -/
def digitsToNat : List Char → Nat → Nat
  | [], acc => acc
  | c :: t, acc => digitsToNat t (acc * 10 + (c.toNat - 48))

/-- Are all characters ASCII digits? -/
def allDigits : List Char → Bool
  | [] => true
  | c :: t => c.isDigit && allDigits t

/-- One `strptime` field: 1–2 digit characters whose value lies in
`[lo, hi]`. -/
def fieldToNat (lo hi : Nat) (l : List Char) : Option Nat :=
  if l ≠ [] ∧ l.length ≤ 2 ∧ allDigits l then
    let v := digitsToNat l 0
    if lo ≤ v ∧ v ≤ hi then some v else none
  else none

/-- Split a character list on `':'` (Python `str.split(":")`-style, used to
model `strptime(s, "%H:%M:%S")`). -/
def splitOnColon : List Char → List (List Char)
  | [] => [[]]
  | c :: t =>
    let r := splitOnColon t
    if c = ':' then [] :: r
    else
      match r with
      | [] => [[c]]
      | g :: gs => (c :: g) :: gs

/-- `datetime.strptime(work_start, "%H:%M:%S")`, reduced to the second of
the day; `none` models a raised `ValueError`. -/
def parseHMS (s : String) : Option Nat :=
  match splitOnColon s.data with
  | [hs, ms, ss] =>
    match fieldToNat 0 23 hs, fieldToNat 0 59 ms, fieldToNat 0 59 ss with
    | some h, some m, some sec => some (h * 3600 + m * 60 + sec)
    | _, _, _ => none
  | _ => none

/-- The start-time string for the `i`-th issue:
`(base_time + timedelta(seconds=i * base_seconds)).strftime("%H:%M:%S")`. -/
def autoStartStr (bsec : Nat) (base : Int) (i : Nat) : String :=
  fmtTimeOfDay (((bsec : Int) + (i : Int) * base).fmod 86400).toNat

/-- The duration list computed by the distribution loop of
`log_auto_for_date` (lines 259–269): `base_seconds = total // n`,
`remaining_seconds = total % n`, and one extra second for each index below
the remainder. -/
def allocList (total : Int) (n : Nat) : List Int :=
  (List.range n).map fun i : Nat => total.fdiv n + (if (i : Int) < total.fmod n then 1 else 0)

/-- The payload the loop body posts for issue `iss` at index `i`. -/
def autoPayload (wd desc aid : String) (base rem : Int) (bsec : Nat)
    (i : Nat) (iss : Issue) : WorklogPayload :=
  { issueKey := iss.key
    issueId := iss.id
    timeSpentSeconds := base + (if (i : Int) < rem then 1 else 0)
    startDate := wd
    startTime := autoStartStr bsec base i
    description := desc
    authorAccountId := aid }

/-- The payloads the loop posts for `issues`, starting at index `i`. -/
def autoPayloadList (wd desc aid : String) (base rem : Int) (bsec : Nat) :
    List Issue → Nat → List WorklogPayload
  | [], _ => []
  | iss :: rest, i =>
    autoPayload wd desc aid base rem bsec i iss ::
      autoPayloadList wd desc aid base rem bsec rest (i + 1)

/-- The `for i, issue in enumerate(issues)` loop of `log_auto_for_date`:
computes each issue's share and start time, posts the worklog (its return
value is discarded by the source), and accumulates the report line
`f"{key}: {logged_hours}h at {start}"`. -/
def autoLoop (env : Env) (wd aid desc : String) (base rem : Int) (bsec : Nat) :
    St → List Issue → Nat → List String → Except String String × St
  | st, [], _, acc => (Except.ok (joinWith " | " acc), st)
  | st, iss :: rest, i, acc =>
    let extra : Int := if (i : Int) < rem then 1 else 0
    let tthis := base + extra
    let istart := autoStartStr bsec base i
    match post_worklog env st iss.key iss.id tthis wd istart desc aid with
    | (Except.error e, st1) => (Except.error e, st1)
    | (Except.ok _r, st1) =>
      autoLoop env wd aid desc base rem bsec st1 rest (i + 1)
        (acc ++ [iss.key ++ ": " ++ env.roundH tthis ++ "h at " ++ istart])

/-- `LogTimeToTempoTool.log_auto_for_date`.  `total_seconds` is the value of
`int(total_hours * 3600)` (supplied by the caller through
`Env.secondsOfHours`).  A non-200 search yields a failure line; an empty
`issues` list yields `"No in-progress issues found."`; otherwise the shares
are `total // n` with one extra second for the first `total % n` issues, and
the `i`-th start time is offset by `i * base_seconds`.  An unparseable
`work_start` raises (`strptime`). -/
def log_auto_for_date (env : Env) (st : St) (work_date account_id : String)
    (total_seconds : Int) (work_start description : String) :
    Except String String × St :=
  let st1 : St := { st with nSearch := st.nSearch + 1, trace := st.trace ++ [Event.searchIssues] }
  match env.search st.nSearch with
  | Except.error e => (Except.error e, st1)
  | Except.ok r =>
    if r.status ≠ 200 then
      (Except.ok ("Failed to fetch in-progress issues: " ++ r.text), st1)
    else if r.issues.isEmpty then
      (Except.ok "No in-progress issues found.", st1)
    else
      let n := r.issues.length
      let base := total_seconds.fdiv n
      let rem := total_seconds.fmod n
      match parseHMS work_start with
      | none =>
        (Except.error ("time data " ++ work_start ++ " does not match format %H:%M:%S"), st1)
      | some bsec => autoLoop env work_date account_id description base rem bsec st1 r.issues 0 []

/-! ## The orchestrator `_run` -/

/-- The structured request `_run` receives.  `issue_key`, `description` and
`work_start` are modelled by their string values (the Python defaults are
`"MGAP-X"`, `"Work log entry"`, `"09:00:00"`). -/
structure LogRequest where
  time_seconds : Int
  issue_key : String := "MGAP-X"
  description : String := "Work log entry"
  work_date : Option String := none
  date_range : Option String := none
  work_start : String := "09:00:00"
  deriving Repr, DecidableEq

/-- The per-date loop of `_run`: manual mode when `issue_key` differs from
the `"MGAP-X"` sentinel, else automatic mode.  In automatic mode
`total_hours = time_seconds / 3600` is falsy exactly when
`time_seconds == 0`, in which case `_run` returns
`"total_hours is required in auto_from_jira mode."` immediately (dropping
the lines accumulated so far, as the source's early `return` does). -/
def runDates (env : Env) (req : LogRequest) (aid : String) :
    St → List String → List String → Except String String × St
  | st, [], acc => (Except.ok (joinWith "\n" acc), st)
  | st, d :: rest, acc =>
    if req.issue_key ≠ "MGAP-X" then
      match log_manual env st req.issue_key req.time_seconds d aid req.work_start req.description with
      | (Except.error e, st1) => (Except.error e, st1)
      | (Except.ok r, st1) => runDates env req aid st1 rest (acc ++ [d ++ ": " ++ r])
    else if req.time_seconds = 0 then
      (Except.ok "total_hours is required in auto_from_jira mode.", st)
    else
      match log_auto_for_date env st d aid (env.secondsOfHours req.time_seconds)
          req.work_start req.description with
      | (Except.error e, st1) => (Except.error e, st1)
      | (Except.ok r, st1) => runDates env req aid st1 rest (acc ++ [d ++ ": " ++ r])

/-- The body of `_run`'s `try` block: resolve the dates, fetch the account
id once, then process every date. -/
def ltBody (env : Env) (today : Int) (parse : String → Option Int)
    (req : LogRequest) : Except String String × St :=
  match resolve_dates today parse req.work_date req.date_range with
  | Except.error e => (Except.error e, st0)
  | Except.ok dates =>
    match get_account_id env st0 with
    | (Except.error e, st) => (Except.error e, st)
    | (Except.ok aid, st) => runDates env req aid st dates []

/-- `LogTimeToTempoTool._run`: the `try`/`except` wrapper around `ltBody`.
Any raised exception is rendered as `"Exception occurred: " ++ message`. -/
def lt_run (env : Env) (today : Int) (parse : String → Option Int)
    (req : LogRequest) : String × St :=
  match ltBody env today parse req with
  | (Except.ok s, st) => (s, st)
  | (Except.error e, st) => ("Exception occurred: " ++ e, st)

/-! ## Concrete fixtures used by witnesses and counterexamples

`20088` is the day index of 2024-12-31 (a Tuesday); its week is
2024-12-30 … 2025-01-03. -/

/-- A `dateparser` oracle that understands nothing. -/
def noParse : String → Option Int := fun _ => none

/-- A `dateparser` oracle understanding exactly the literal "2024-06-05"
(day index 19879). -/
def cexParse : String → Option Int :=
  fun s => if s = "2024-06-05" then some 19879 else none

/-- A remote world where every call succeeds; the search finds three open
issues. -/
def envAllOk : Env where
  myself := Except.ok ⟨200, "", "acct-1"⟩
  issue := fun _ _ => Except.ok ⟨200, "", "10001"⟩
  search := fun _ =>
    Except.ok ⟨200, "", [⟨"MGAP-1", "101"⟩, ⟨"MGAP-2", "102"⟩, ⟨"MGAP-3", "103"⟩]⟩
  post := fun _ _ => Except.ok ⟨200, "ok"⟩
  secondsOfHours := fun s => s
  roundH := fun t => toString t

/-- Like `envAllOk` but the search finds two open issues. -/
def envTwoIssues : Env :=
  { envAllOk with
      search := fun _ => Except.ok ⟨200, "", [⟨"MGAP-1", "101"⟩, ⟨"MGAP-2", "102"⟩]⟩ }

/-- Like `envAllOk` but the search succeeds with an empty issue list. -/
def envEmptySearch : Env :=
  { envAllOk with search := fun _ => Except.ok ⟨200, "", []⟩ }

/-- Like `envAllOk` but every issue lookup returns HTTP 404 (a business
failure, not a transport fault). -/
def envIssue404 : Env :=
  { envAllOk with
      issue := fun _ _ => Except.ok ⟨404, "issue does not exist", ""⟩ }

/-- A manual-mode request over last week's five dates. -/
def reqManual : LogRequest :=
  { time_seconds := 3600, issue_key := "ABC-1", date_range := some "last week" }

/-- An automatic-mode request over this week's five dates. -/
def reqAuto : LogRequest :=
  { time_seconds := 27000, date_range := some "this week" }

/-! ## Helper lemmas -/

/-- `lt_run` keeps the context produced by the `try` body. -/
theorem lt_run_snd (env : Env) (today : Int) (parse : String → Option Int)
    (req : LogRequest) :
    (lt_run env today parse req).2 = (ltBody env today parse req).2 := by
  unfold lt_run
  rcases h : ltBody env today parse req with ⟨res, st⟩
  cases res <;> rfl

/-! ## C6: `_run` never lets an exception escape -/

/-- C6: for every input request and every behaviour of the remote world,
`_run` returns a string: either the `try` body's result, or — when the body
raised — that exception's message prefixed with "Exception occurred: ". -/
theorem c6_exceptions_rendered (env : Env) (today : Int)
    (parse : String → Option Int) (req : LogRequest) :
    (∃ s st, ltBody env today parse req = (Except.ok s, st) ∧
      lt_run env today parse req = (s, st)) ∨
    (∃ e st, ltBody env today parse req = (Except.error e, st) ∧
      lt_run env today parse req = ("Exception occurred: " ++ e, st)) := by
  rcases h : ltBody env today parse req with ⟨res, st⟩
  cases res with
  | ok s => exact Or.inl ⟨s, st, rfl, by simp [lt_run, h]⟩
  | error e => exact Or.inr ⟨e, st, rfl, by simp [lt_run, h]⟩

/-! ## C9: empty open-item set in automatic mode -/

/-- C9: when the search call succeeds (HTTP 200) with an empty issue list,
`log_auto_for_date` returns the line "No in-progress issues found." without
raising, and the only remote call it made is the search itself (in
particular no worklog was submitted). -/
theorem c9_empty_auto_no_posts (env : Env) (st : St) (wd aid : String)
    (total : Int) (ws desc : String) (r : SearchResp)
    (hs : env.search st.nSearch = Except.ok r) (h200 : r.status = 200)
    (hemp : r.issues = []) :
    log_auto_for_date env st wd aid total ws desc =
      (Except.ok "No in-progress issues found.",
        ⟨st.nIssue, st.nSearch + 1, st.nPost, st.trace ++ [Event.searchIssues]⟩) := by
  simp [log_auto_for_date, hs, h200, hemp]

/-- Witness for C9 at a concrete environment. -/
theorem c9_empty_auto_no_posts_witness :
    log_auto_for_date envEmptySearch st0 "2025-01-02" "acct-1" 27000 "09:00:00" "work" =
      (Except.ok "No in-progress issues found.",
        ⟨0, 1, 0, [Event.searchIssues]⟩) :=
  c9_empty_auto_no_posts envEmptySearch st0 "2025-01-02" "acct-1" 27000 "09:00:00"
    "work" ⟨200, "", []⟩ rfl rfl rfl

/-! ## C3: "this week" versus "full week" -/

/-- C3 (code bug): with today = 2024-12-31, "this week" resolves to the
five current-week dates, but "full week" — and even the literal
"full_week" — falls through the broken membership test
`in ("full_week" or "full week")` to the generic parser and raises when the
parser does not understand it, instead of resolving to the same five
dates. -/
theorem c3_full_week_divergence :
    resolve_dates 20088 noParse none (some "this week") =
      Except.ok ["2024-12-30", "2024-12-31", "2025-01-01", "2025-01-02", "2025-01-03"] ∧
    resolve_dates 20088 noParse none (some "full week") =
      Except.error "Could not parse date_range: full week" ∧
    resolve_dates 20088 noParse none (some "full_week") =
      Except.error "Could not parse date_range: full_week" :=
  ⟨rfl, rfl, rfl⟩

/-! ## C10: accidental substring matches of "full_week" -/

/-- C10 (amended): every non-empty `date_range` whose normalization is a
proper substring of the literal "full_week" and is not this-week — e.g.
"week", "full", or "eek" — resolves to the current week's Monday–Friday
dates, because the branch tests substring membership in the single string
"full_week". -/
theorem c10_substring_week (today : Int) (parse : String → Option Int)
    (dr : String) (hne : dr ≠ "")
    (hthis1 : normRange dr ≠ "this_week") (hthis2 : normRange dr ≠ "this week")
    (hsub : strIn (normRange dr) "full_week" = true)
    (_hproper : normRange dr ≠ "full_week") :
    resolve_dates today parse none (some dr) = Except.ok (monFri today) := by
  unfold resolve_dates
  rw [if_pos (by simp [truthy, hne])]
  simp only [Option.getD_some]
  rw [if_neg (by simp [hthis1, hthis2]), if_pos hsub]

/-- Witness for C10's amended statement at `date_range = "week"`. -/
theorem c10_substring_week_witness :
    resolve_dates 20088 noParse none (some "week") = Except.ok (monFri 20088) :=
  c10_substring_week 20088 noParse "week" (by decide) (by decide) (by decide) rfl
    (by decide)

/-- Counterexample to C10 as stated: "ull_w" is offered as an example, but
its normalization is "ull w" (the underscore becomes a space), which is not
a substring of "full_week"; resolving "ull_w" therefore falls through to
the generic parser and fails rather than producing the week's dates. -/
theorem c10_counterexample :
    normRange "ull_w" = "ull w" ∧
    strIn (normRange "ull_w") "full_week" = false ∧
    resolve_dates 20088 noParse none (some "ull_w") =
      Except.error "Could not parse date_range: ull_w" :=
  ⟨rfl, rfl, rfl⟩

/-! ## C4: precedence of `date_range` over `work_date` -/

/-- C4 (amended): with "given" meaning "given and non-empty" (Python
truthiness): a truthy `date_range` alone determines the result; with a
falsy `date_range`, a truthy `work_date` alone determines the result; when
both are falsy the result is the single date today. -/
theorem c4_precedence (today : Int) (parse : String → Option Int) :
    (∀ wd dr : Option String, truthy dr = true →
      resolve_dates today parse wd dr = resolve_dates today parse none dr) ∧
    (∀ wd dr : Option String, truthy dr = false → truthy wd = true →
      resolve_dates today parse wd dr = resolve_dates today parse wd none) ∧
    (∀ wd dr : Option String, truthy dr = false → truthy wd = false →
      resolve_dates today parse wd dr = Except.ok [fmtDate today]) := by
  refine ⟨?_, ?_, ?_⟩
  · intro wd dr h
    unfold resolve_dates
    rw [if_pos h, if_pos h]
  · intro wd dr hdr _hwd
    unfold resolve_dates
    rw [if_neg (by simp [hdr]), if_neg (show ¬(truthy none = true) by simp [truthy])]
  · intro wd dr hdr hwd
    unfold resolve_dates
    rw [if_neg (by simp [hdr]), if_neg (by simp [hwd])]

/-- Witness for C4's amended statement at concrete inputs. -/
theorem c4_precedence_witness :
    resolve_dates 20088 cexParse (some "2024-06-05") (some "last week") =
      resolve_dates 20088 cexParse none (some "last week") ∧
    resolve_dates 20088 cexParse (some "2024-06-05") (some "") =
      resolve_dates 20088 cexParse (some "2024-06-05") none ∧
    resolve_dates 20088 cexParse none (some "") = Except.ok [fmtDate 20088] :=
  ⟨(c4_precedence 20088 cexParse).1 (some "2024-06-05") (some "last week") rfl,
   (c4_precedence 20088 cexParse).2.1 (some "2024-06-05") (some "") rfl rfl,
   (c4_precedence 20088 cexParse).2.2 none (some "") rfl rfl⟩

/-- Counterexample to C4 as stated: `date_range = some ""` is given, yet it
does not alone determine the result — with the same `date_range`, changing
`work_date` changes the outcome, because Python's `if date_range:` treats
the empty string as absent. -/
theorem c4_counterexample :
    resolve_dates 20088 cexParse (some "2024-06-05") (some "") =
      Except.ok ["2024-06-05"] ∧
    resolve_dates 20088 cexParse none (some "") = Except.ok ["2024-12-31"] ∧
    (["2024-06-05"] : List String) ≠ ["2024-12-31"] :=
  ⟨rfl, rfl, by decide⟩

/-! ## C7: unparseable expressions fail -/

/-- C7: a `date_range` that matches no literal branch and is not understood
by the parser raises a parse error, as does an ununderstood `work_date`; in
particular "zzzqqq" fails. -/
theorem c7_unparseable_fails (today : Int) (parse : String → Option Int) :
    (∀ dr : String, dr ≠ "" →
      ¬(normRange dr = "this_week" ∨ normRange dr = "this week") →
      strIn (normRange dr) "full_week" = false →
      strIn (normRange dr) "next_weeknext week" = false →
      ¬(normRange dr = "last_week" ∨ normRange dr = "last week") →
      parse dr = none →
      resolve_dates today parse none (some dr) =
        Except.error ("Could not parse date_range: " ++ dr)) ∧
    (∀ wd : String, wd ≠ "" → parse wd = none →
      resolve_dates today parse (some wd) none =
        Except.error ("Could not parse work_date: " ++ wd)) ∧
    (parse "zzzqqq" = none →
      resolve_dates today parse none (some "zzzqqq") =
        Except.error "Could not parse date_range: zzzqqq") := by
  have main : ∀ dr : String, dr ≠ "" →
      ¬(normRange dr = "this_week" ∨ normRange dr = "this week") →
      strIn (normRange dr) "full_week" = false →
      strIn (normRange dr) "next_weeknext week" = false →
      ¬(normRange dr = "last_week" ∨ normRange dr = "last week") →
      parse dr = none →
      resolve_dates today parse none (some dr) =
        Except.error ("Could not parse date_range: " ++ dr) := by
    intro dr hne h1 h2 h3 h4 hp
    unfold resolve_dates
    rw [if_pos (by simp [truthy, hne])]
    simp only [Option.getD_some]
    rw [if_neg h1, if_neg (by simp [h2]), if_neg (by simp [h3]), if_neg h4, hp]
  refine ⟨main, ?_, ?_⟩
  · intro wd hne hp
    unfold resolve_dates
    rw [if_neg (by simp [truthy]), if_pos (by simp [truthy, hne])]
    simp only [Option.getD_some]
    rw [hp]
  · intro hp
    exact main "zzzqqq" (by decide) (by decide) (by decide) (by decide) (by decide) hp

/-- Witness for C7 with a parser that understands nothing. -/
theorem c7_unparseable_fails_witness :
    resolve_dates 20088 noParse none (some "zzzqqq") =
      Except.error "Could not parse date_range: zzzqqq" :=
  (c7_unparseable_fails 20088 noParse).2.2 rfl

/-! ## Arithmetic of the distribution -/

/-- Floor division agrees with `Nat` division on nonnegative operands. -/
theorem fdiv_ofNat (t n : Nat) : (t : Int).fdiv (n : Int) = ((t / n : Nat) : Int) :=
  (Int.ofNat_fdiv t n).symm

/-- Floor modulus agrees with `Nat` modulus on nonnegative operands. -/
theorem fmod_ofNat : ∀ t n : Nat, (t : Int).fmod (n : Int) = ((t % n : Nat) : Int)
  | 0, _ => by simp [Int.fmod]
  | Nat.succ _, _ => rfl

/-- `getD` of a mapped range. -/
theorem getD_range_map : ∀ (n : Nat) (f : Nat → Int) (i : Nat), i < n →
    ((List.range n).map f).getD i 0 = f i := by
  intro n
  induction n with
  | zero => intro f i h; exact absurd h (Nat.not_lt_zero i)
  | succ n ih =>
    intro f i h
    rw [List.range_succ_eq_map]
    cases i with
    | zero => simp
    | succ j =>
      simp only [List.map_cons, List.map_map, List.getD_cons_succ]
      have h2 := ih (f ∘ Nat.succ) j (by omega)
      simpa using h2

/-- Sum of a floor share plus an indicator for the first `r` indices. -/
theorem sumAllocAux : ∀ (n : Nat) (b : Int) (r : Nat),
    ((List.range n).map fun i => b + if i < r then (1 : Int) else 0).sum
      = n * b + min n r := by
  intro n
  induction n with
  | zero => intro b r; simp
  | succ n ih =>
    intro b r
    rw [List.range_succ, List.map_append, List.sum_append, ih]
    by_cases h : n < r
    · have h1 : min n r = n := by omega
      have h2 : min (n + 1) r = n + 1 := by omega
      simp only [List.map_cons, List.map_nil, List.sum_cons, List.sum_nil, if_pos h, h1, h2]
      push_cast
      ring
    · have h1 : min (n + 1) r = min n r := by omega
      simp only [List.map_cons, List.map_nil, List.sum_cons, List.sum_nil, if_neg h, h1]
      push_cast
      ring

/-- On a nonnegative total the distribution is the `Nat`-arithmetic one. -/
theorem allocList_ofNat (t n : Nat) :
    allocList (t : Int) n
      = (List.range n).map fun i => ((t / n : Nat) : Int) + if i < t % n then (1 : Int) else 0 := by
  unfold allocList
  congr 1
  funext i
  rw [fdiv_ofNat, fmod_ofNat]
  congr 1
  by_cases h : i < t % n
  · rw [if_pos (show ((i : Nat) : Int) < ((t % n : Nat) : Int) from by exact_mod_cast h),
      if_pos h]
  · rw [if_neg (show ¬(((i : Nat) : Int) < ((t % n : Nat) : Int)) from by exact_mod_cast h),
      if_neg h]

/-- The distribution loses nothing: the shares sum to the exact total. -/
theorem allocList_sum (total : Int) (n : Nat) (htot : 0 ≤ total) (hn : 0 < n) :
    (allocList total n).sum = total := by
  obtain ⟨t, rfl⟩ := Int.eq_ofNat_of_zero_le htot
  rw [allocList_ofNat, sumAllocAux]
  have hm : min n (t % n) = t % n := by
    have := Nat.mod_lt t hn
    omega
  rw [hm]
  exact_mod_cast Nat.div_add_mod t n

/-- Pointwise description of the distribution. -/
theorem allocList_getD (total : Int) (n : Nat) (i : Nat) (hi : i < n) :
    (allocList total n).getD i 0
      = total.fdiv n + (if (i : Int) < total.fmod n then 1 else 0) := by
  unfold allocList
  exact getD_range_map n _ i hi

/-- The remainder is nonnegative and below the item count. -/
theorem fmod_bounds (total : Int) (n : Nat) (htot : 0 ≤ total) (hn : 0 < n) :
    0 ≤ total.fmod n ∧ total.fmod n < n := by
  obtain ⟨t, rfl⟩ := Int.eq_ofNat_of_zero_le htot
  rw [fmod_ofNat]
  exact ⟨by exact_mod_cast Nat.zero_le _, by exact_mod_cast Nat.mod_lt t hn⟩

/-- Sum of the first `i` shares (the true cumulative allocation). -/
theorem allocList_take_sum (total : Int) (n : Nat) (htot : 0 ≤ total)
    (i : Nat) (hi : i ≤ n) :
    ((allocList total n).take i).sum
      = (i : Int) * total.fdiv n + min (i : Int) (total.fmod n) := by
  obtain ⟨t, rfl⟩ := Int.eq_ofNat_of_zero_le htot
  rw [allocList_ofNat, ← List.map_take, List.take_range]
  have hmin : i ⊓ n = i := by omega
  rw [hmin, sumAllocAux, fdiv_ofNat, fmod_ofNat]
  push_cast
  ring

/-! ## Extracting the loop's payloads -/

/-- A search event contributes no payload. -/
theorem postedPayloads_nonpost (l : List Event) :
    postedPayloads (Event.searchIssues :: l) = postedPayloads l := by
  simp [postedPayloads, List.filterMap_cons]

/-- Extraction is inverse to wrapping payloads as post events. -/
theorem postedPayloads_map_pw (L : List WorklogPayload) :
    postedPayloads (L.map Event.postWorklog) = L := by
  induction L with
  | nil => rfl
  | cons p rest ih =>
    simp only [postedPayloads, List.map_cons, List.filterMap_cons] at ih ⊢
    simpa using ih

/-- The durations the loop posts, as a function of the index. -/
theorem autoPayloadList_durations (wd desc aid : String) (base rem : Int) (bsec : Nat) :
    ∀ (issues : List Issue) (i : Nat),
      (autoPayloadList wd desc aid base rem bsec issues i).map WorklogPayload.timeSpentSeconds
        = (List.range issues.length).map
            (fun j => base + if ((i + j : Nat) : Int) < rem then 1 else 0) := by
  intro issues
  induction issues with
  | nil => intro i; simp [autoPayloadList]
  | cons iss rest ih =>
    intro i
    have hcomp : ((fun j => base + if ((i + j : Nat) : Int) < rem then (1 : Int) else 0)
          ∘ Nat.succ)
        = fun j => base + if ((i + 1 + j : Nat) : Int) < rem then (1 : Int) else 0 := by
      funext j
      simp only [Function.comp, Nat.succ_eq_add_one]
      have hj : i + (j + 1) = i + 1 + j := by omega
      rw [hj]
    simp only [autoPayloadList, List.map_cons, List.length_cons, List.range_succ_eq_map,
      List.map_map, hcomp, ih (i + 1)]
    simp [autoPayload]

/-- The start times the loop posts, as a function of the index. -/
theorem autoPayloadList_starts (wd desc aid : String) (base rem : Int) (bsec : Nat) :
    ∀ (issues : List Issue) (i : Nat),
      (autoPayloadList wd desc aid base rem bsec issues i).map WorklogPayload.startTime
        = (List.range issues.length).map (fun j => autoStartStr bsec base (i + j)) := by
  intro issues
  induction issues with
  | nil => intro i; simp [autoPayloadList]
  | cons iss rest ih =>
    intro i
    have hcomp : ((fun j => autoStartStr bsec base (i + j)) ∘ Nat.succ)
        = fun j => autoStartStr bsec base (i + 1 + j) := by
      funext j
      simp only [Function.comp, Nat.succ_eq_add_one]
      have hj : i + (j + 1) = i + 1 + j := by omega
      rw [hj]
    simp only [autoPayloadList, List.map_cons, List.length_cons, List.range_succ_eq_map,
      List.map_map, hcomp, ih (i + 1)]
    simp [autoPayload]

/-! ## Running the loop -/

/-- A transport-successful post returns a line and extends the context by
exactly the posted payload. -/
theorem post_worklog_ok (env : Env) (st : St) (k id : String) (ts : Int)
    (wdt ws desc aid : String)
    (hpost : ∃ x, env.post st.nPost ⟨k, id, ts, wdt, ws, desc, aid⟩ = Except.ok x) :
    ∃ res, post_worklog env st k id ts wdt ws desc aid =
      (Except.ok res,
        ⟨st.nIssue, st.nSearch, st.nPost + 1,
          st.trace ++ [Event.postWorklog ⟨k, id, ts, wdt, ws, desc, aid⟩]⟩) := by
  obtain ⟨x, hx⟩ := hpost
  simp only [post_worklog, hx]
  by_cases h : x.status = 200 ∨ x.status = 201
  · exact ⟨_, by rw [if_pos h]⟩
  · exact ⟨_, by rw [if_neg h]⟩

/-- With transport-successful posts, the loop succeeds and appends exactly
the payloads of `autoPayloadList`. -/
theorem autoLoop_run (env : Env) (wd aid desc : String) (base rem : Int) (bsec : Nat)
    (hpost : ∀ k p, ∃ x, env.post k p = Except.ok x) :
    ∀ (issues : List Issue) (st : St) (i : Nat) (acc : List String), ∃ s,
      autoLoop env wd aid desc base rem bsec st issues i acc =
        (Except.ok s,
          ⟨st.nIssue, st.nSearch, st.nPost + issues.length,
            st.trace ++ (autoPayloadList wd desc aid base rem bsec issues i).map
              Event.postWorklog⟩) := by
  intro issues
  induction issues with
  | nil =>
    intro st i acc
    refine ⟨joinWith " | " acc, ?_⟩
    simp [autoLoop, autoPayloadList]
  | cons iss rest ih =>
    intro st i acc
    obtain ⟨res, hres⟩ := post_worklog_ok env st iss.key iss.id
      (base + if (i : Int) < rem then 1 else 0) wd (autoStartStr bsec base i) desc aid
      (hpost st.nPost _)
    obtain ⟨s, hs⟩ := ih ⟨st.nIssue, st.nSearch, st.nPost + 1,
      st.trace ++ [Event.postWorklog ⟨iss.key, iss.id,
        base + if (i : Int) < rem then 1 else 0, wd, autoStartStr bsec base i, desc, aid⟩]⟩
      (i + 1) (acc ++ [iss.key ++ ": " ++ env.roundH (base + if (i : Int) < rem then 1 else 0)
        ++ "h at " ++ autoStartStr bsec base i])
    refine ⟨s, ?_⟩
    simp only [autoLoop, hres]
    rw [hs]
    simp [autoPayloadList, autoPayload, List.append_assoc, List.singleton_append,
      Nat.add_assoc, Nat.add_comm 1 rest.length]

/-- Successful automatic-mode processing: the context gains the search event
followed by exactly the distribution's payloads. -/
theorem log_auto_run (env : Env) (st : St) (wd aid : String) (total : Int)
    (ws desc : String) (r : SearchResp) (bsec : Nat)
    (hs : env.search st.nSearch = Except.ok r) (h200 : r.status = 200)
    (hne : r.issues ≠ []) (hws : parseHMS ws = some bsec)
    (hpost : ∀ k p, ∃ x, env.post k p = Except.ok x) :
    ∃ s, log_auto_for_date env st wd aid total ws desc =
      (Except.ok s,
        ⟨st.nIssue, st.nSearch + 1, st.nPost + r.issues.length,
          (st.trace ++ [Event.searchIssues]) ++
            (autoPayloadList wd desc aid (total.fdiv r.issues.length)
              (total.fmod r.issues.length) bsec r.issues 0).map Event.postWorklog⟩) := by
  obtain ⟨s, hrun⟩ := autoLoop_run env wd aid desc (total.fdiv r.issues.length)
    (total.fmod r.issues.length) bsec hpost r.issues
    ⟨st.nIssue, st.nSearch + 1, st.nPost, st.trace ++ [Event.searchIssues]⟩ 0 []
  refine ⟨s, ?_⟩
  simp only [log_auto_for_date, hs, hws]
  rw [if_neg (show ¬(r.status ≠ 200) by simp [h200]),
    if_neg (show ¬(r.issues.isEmpty = true) by simp [List.isEmpty_iff, hne])]
  exact hrun

/-! ## C1: exact distribution of the total -/

/-- C1: in automatic mode with `n` open items and `total_seconds ≥ 0`, the
posted durations are exactly `base = total div n` plus one extra second for
precisely the first `total mod n` items in input order, and they sum to
`total_seconds` exactly. -/
theorem c1_auto_distribution (env : Env) (st : St) (wd aid : String) (total : Int)
    (ws desc : String) (r : SearchResp) (bsec : Nat)
    (hs : env.search st.nSearch = Except.ok r) (h200 : r.status = 200)
    (hne : r.issues ≠ []) (hws : parseHMS ws = some bsec) (htot : 0 ≤ total)
    (hpost : ∀ k p, ∃ x, env.post k p = Except.ok x) :
    (postedPayloads ((log_auto_for_date env st wd aid total ws desc).2.trace.drop
        st.trace.length)).map WorklogPayload.timeSpentSeconds
      = allocList total r.issues.length ∧
    (allocList total r.issues.length).sum = total ∧
    0 ≤ total.fmod r.issues.length ∧ total.fmod r.issues.length < r.issues.length ∧
    (∀ i : Nat, i < r.issues.length →
      ((i : Int) < total.fmod r.issues.length →
        (allocList total r.issues.length).getD i 0 = total.fdiv r.issues.length + 1) ∧
      (total.fmod r.issues.length ≤ (i : Int) →
        (allocList total r.issues.length).getD i 0 = total.fdiv r.issues.length)) := by
  have hn : 0 < r.issues.length := List.length_pos.mpr hne
  obtain ⟨s, heq⟩ := log_auto_run env st wd aid total ws desc r bsec hs h200 hne hws hpost
  obtain ⟨h0, h1⟩ := fmod_bounds total r.issues.length htot hn
  refine ⟨?_, allocList_sum total r.issues.length htot hn, h0, h1, ?_⟩
  · rw [heq]
    dsimp only
    rw [List.append_assoc, List.drop_left]
    simp only [List.singleton_append, postedPayloads_nonpost, postedPayloads_map_pw]
    rw [autoPayloadList_durations]
    unfold allocList
    congr 1
    funext j
    rw [Nat.zero_add]
  · intro i hi
    constructor
    · intro hlt
      rw [allocList_getD total _ i hi, if_pos hlt]
    · intro hge
      rw [allocList_getD total _ i hi, if_neg (not_lt.mpr hge), add_zero]

/-- Witness for C1: 10000 seconds over three issues give 3334 + 3333 + 3333. -/
theorem c1_auto_distribution_witness :
    (postedPayloads ((log_auto_for_date envAllOk st0 "2025-01-02" "acct-1" 10000
        "09:00:00" "work").2.trace.drop 0)).map WorklogPayload.timeSpentSeconds
      = allocList 10000 3 ∧
    (allocList 10000 3).sum = 10000 ∧
    allocList 10000 3 = [3334, 3333, 3333] := by
  have h := c1_auto_distribution envAllOk st0 "2025-01-02" "acct-1" 10000 "09:00:00"
    "work" ⟨200, "", [⟨"MGAP-1", "101"⟩, ⟨"MGAP-2", "102"⟩, ⟨"MGAP-3", "103"⟩]⟩ 32400
    rfl rfl (by decide) rfl (by decide) (fun _ _ => ⟨⟨200, "ok"⟩, rfl⟩)
  exact ⟨h.1, h.2.1, by decide⟩

/-! ## C2: start-time offsets are multiples of the base share -/

/-- C2: in automatic mode, the `i`-th posted start time is the requested
start time advanced by `i * base` seconds (`base = total div n`) — not by
the cumulative prior allocation, which equals `i * base + min i remainder`
and so exceeds the used offset whenever earlier items carried the extra
second. -/
theorem c2_auto_start_times (env : Env) (st : St) (wd aid : String) (total : Int)
    (ws desc : String) (r : SearchResp) (bsec : Nat)
    (hs : env.search st.nSearch = Except.ok r) (h200 : r.status = 200)
    (hne : r.issues ≠ []) (hws : parseHMS ws = some bsec) (htot : 0 ≤ total)
    (hpost : ∀ k p, ∃ x, env.post k p = Except.ok x) :
    (postedPayloads ((log_auto_for_date env st wd aid total ws desc).2.trace.drop
        st.trace.length)).map WorklogPayload.startTime
      = (List.range r.issues.length).map (autoStartStr bsec (total.fdiv r.issues.length)) ∧
    (∀ i : Nat, i ≤ r.issues.length →
      ((allocList total r.issues.length).take i).sum
        = (i : Int) * total.fdiv r.issues.length
          + min (i : Int) (total.fmod r.issues.length)) := by
  obtain ⟨s, heq⟩ := log_auto_run env st wd aid total ws desc r bsec hs h200 hne hws hpost
  constructor
  · rw [heq]
    dsimp only
    rw [List.append_assoc, List.drop_left]
    simp only [List.singleton_append, postedPayloads_nonpost, postedPayloads_map_pw]
    rw [autoPayloadList_starts]
    congr 1
    funext j
    rw [Nat.zero_add]
  · intro i hi
    exact allocList_take_sum total r.issues.length htot i hi

/-- Witness for C2: 27000 seconds over two issues start at 09:00:00 and
12:45:00 (base offset 13500 s). -/
theorem c2_auto_start_times_witness :
    (postedPayloads ((log_auto_for_date envTwoIssues st0 "2024-12-30" "acct-1" 27000
        "09:00:00" "work").2.trace.drop 0)).map WorklogPayload.startTime
      = (List.range 2).map (autoStartStr 32400 13500) ∧
    (List.range 2).map (autoStartStr 32400 13500) = ["09:00:00", "12:45:00"] := by
  have h := c2_auto_start_times envTwoIssues st0 "2024-12-30" "acct-1" 27000 "09:00:00"
    "work" ⟨200, "", [⟨"MGAP-1", "101"⟩, ⟨"MGAP-2", "102"⟩]⟩ 32400
    rfl rfl (by decide) rfl (by decide) (fun _ _ => ⟨⟨200, "ok"⟩, rfl⟩)
  exact ⟨h.1, by decide⟩

/-! ## C5: per-date isolation -/

/-- Without transport faults, manual-mode processing of a date always
returns a line (success or business-failure text), never an exception. -/
theorem log_manual_ok (env : Env) (st : St) (key : String) (ts : Int)
    (d aid ws desc : String)
    (hiss : ∀ k key2, ∃ r, env.issue k key2 = Except.ok r)
    (hpost : ∀ k p, ∃ x, env.post k p = Except.ok x) :
    ∃ res st1, log_manual env st key ts d aid ws desc = (Except.ok res, st1) := by
  obtain ⟨r, hr⟩ := hiss st.nIssue key
  by_cases h : r.status = 200
  · obtain ⟨res, hres⟩ := post_worklog_ok env
      ⟨st.nIssue + 1, st.nSearch, st.nPost, st.trace ++ [Event.fetchIssue key]⟩
      key r.id ts d ws desc aid (hpost _ _)
    exact ⟨res, _, by
      simp only [log_manual, hr]
      rw [if_neg (show ¬(r.status ≠ 200) by simp [h])]
      exact hres⟩
  · exact ⟨_, _, by
      simp only [log_manual, hr]
      rw [if_pos (show r.status ≠ 200 from h)]⟩

/-- Without transport faults and with a parseable start time, automatic-mode
processing of a date always returns a line, never an exception. -/
theorem log_auto_ok (env : Env) (st : St) (d aid : String) (total : Int)
    (ws desc : String)
    (hsrch : ∀ k, ∃ r, env.search k = Except.ok r)
    (hpost : ∀ k p, ∃ x, env.post k p = Except.ok x)
    (hws : ∃ b, parseHMS ws = some b) :
    ∃ res st1, log_auto_for_date env st d aid total ws desc = (Except.ok res, st1) := by
  obtain ⟨r, hr⟩ := hsrch st.nSearch
  by_cases h200 : r.status = 200
  · by_cases hemp : r.issues = []
    · exact ⟨_, _, by
        simp only [log_auto_for_date, hr]
        rw [if_neg (show ¬(r.status ≠ 200) by simp [h200]),
          if_pos (show r.issues.isEmpty = true by simp [List.isEmpty_iff, hemp])]⟩
    · obtain ⟨b, hb⟩ := hws
      obtain ⟨s, hs2⟩ := log_auto_run env st d aid total ws desc r b hr h200 hemp hb hpost
      exact ⟨s, _, hs2⟩
  · exact ⟨_, _, by
      simp only [log_auto_for_date, hr]
      rw [if_pos (show r.status ≠ 200 from h200)]⟩

/-- The per-date loop: one report line per date, in order, each line led by
its own date; a business failure on a date leaves the remaining dates
processed. -/
theorem runDates_ok (env : Env) (req : LogRequest) (aid : String)
    (hiss : ∀ k key, ∃ r, env.issue k key = Except.ok r)
    (hsrch : ∀ k, ∃ r, env.search k = Except.ok r)
    (hpost : ∀ k p, ∃ x, env.post k p = Except.ok x)
    (hmode : req.issue_key = "MGAP-X" →
      req.time_seconds ≠ 0 ∧ ∃ b, parseHMS req.work_start = some b) :
    ∀ (dates : List String) (st : St) (acc : List String), ∃ L st1,
      runDates env req aid st dates acc = (Except.ok (joinWith "\n" (acc ++ L)), st1) ∧
      L.length = dates.length ∧
      ∀ k, k < dates.length → ∃ res, L.getD k "" = dates.getD k "" ++ ": " ++ res := by
  intro dates
  induction dates with
  | nil =>
    intro st acc
    exact ⟨[], st, by simp [runDates], rfl, fun k hk => absurd hk (by simp)⟩
  | cons d rest ih =>
    intro st acc
    by_cases hkey : req.issue_key = "MGAP-X"
    · obtain ⟨hts, hb⟩ := hmode hkey
      obtain ⟨res, st1, hstep⟩ := log_auto_ok env st d aid
        (env.secondsOfHours req.time_seconds) req.work_start req.description hsrch hpost hb
      obtain ⟨L, st2, hrun, hlen, hget⟩ := ih st1 (acc ++ [d ++ ": " ++ res])
      refine ⟨(d ++ ": " ++ res) :: L, st2, ?_, by simp [hlen], ?_⟩
      · simp only [runDates, hstep, hrun,
          if_neg (show ¬(req.issue_key ≠ "MGAP-X") by simp [hkey]), if_neg hts]
        rw [List.append_assoc, List.singleton_append]
      · intro k hk
        cases k with
        | zero => exact ⟨res, by simp⟩
        | succ k2 =>
          simp only [List.getD_cons_succ]
          exact hget k2 (by simpa using hk)
    · obtain ⟨res, st1, hstep⟩ := log_manual_ok env st req.issue_key req.time_seconds d aid
        req.work_start req.description hiss hpost
      obtain ⟨L, st2, hrun, hlen, hget⟩ := ih st1 (acc ++ [d ++ ": " ++ res])
      refine ⟨(d ++ ": " ++ res) :: L, st2, ?_, by simp [hlen], ?_⟩
      · simp only [runDates, hstep, hrun, if_pos (show req.issue_key ≠ "MGAP-X" from hkey)]
        rw [List.append_assoc, List.singleton_append]
      · intro k hk
        cases k with
        | zero => exact ⟨res, by simp⟩
        | succ k2 =>
          simp only [List.getD_cons_succ]
          exact hget k2 (by simpa using hk)

/-- C5: when date resolution and the identity fetch succeed and remote calls
raise no transport faults, the run's report has exactly one line per
resolved date in input order — each of the form "date: result", with any
business failure's text inline in its own date's line — regardless of which
dates fail. -/
theorem c5_per_date_isolation (env : Env) (today : Int) (parse : String → Option Int)
    (req : LogRequest) (dates : List String) (g : GetResp)
    (hres : resolve_dates today parse req.work_date req.date_range = Except.ok dates)
    (hacct : env.myself = Except.ok g) (hg : g.status = 200)
    (hiss : ∀ k key, ∃ r, env.issue k key = Except.ok r)
    (hsrch : ∀ k, ∃ r, env.search k = Except.ok r)
    (hpost : ∀ k p, ∃ x, env.post k p = Except.ok x)
    (hmode : req.issue_key = "MGAP-X" →
      req.time_seconds ≠ 0 ∧ ∃ b, parseHMS req.work_start = some b) :
    ∃ L : List String,
      (lt_run env today parse req).1 = joinWith "\n" L ∧
      L.length = dates.length ∧
      ∀ k, k < dates.length → ∃ res, L.getD k "" = dates.getD k "" ++ ": " ++ res := by
  obtain ⟨L, st1, hrun, hlen, hget⟩ := runDates_ok env req g.accountId hiss hsrch hpost hmode
    dates ⟨0, 0, 0, [Event.getAccount]⟩ []
  refine ⟨L, ?_, hlen, hget⟩
  simp only [lt_run, ltBody, hres, get_account_id, hacct, st0, List.nil_append,
    if_neg (show ¬(g.status ≠ 200) by simp [hg]), hrun]

/-- Witness for C5: manual mode over last week's five dates with every issue
lookup failing (HTTP 404) still yields five date-led lines. -/
theorem c5_per_date_isolation_witness :
    ∃ L : List String,
      (lt_run envIssue404 20088 noParse reqManual).1 = joinWith "\n" L ∧
      L.length = (["2024-12-23", "2024-12-24", "2024-12-25", "2024-12-26",
        "2024-12-27"] : List String).length ∧
      ∀ k, k < (["2024-12-23", "2024-12-24", "2024-12-25", "2024-12-26",
        "2024-12-27"] : List String).length →
        ∃ res, L.getD k "" = (["2024-12-23", "2024-12-24", "2024-12-25", "2024-12-26",
          "2024-12-27"] : List String).getD k "" ++ ": " ++ res :=
  c5_per_date_isolation envIssue404 20088 noParse reqManual
    ["2024-12-23", "2024-12-24", "2024-12-25", "2024-12-26", "2024-12-27"]
    ⟨200, "", "acct-1"⟩ rfl rfl rfl
    (fun _ _ => ⟨⟨404, "issue does not exist", ""⟩, rfl⟩)
    (fun _ => ⟨⟨200, "", [⟨"MGAP-1", "101"⟩, ⟨"MGAP-2", "102"⟩, ⟨"MGAP-3", "103"⟩]⟩, rfl⟩)
    (fun _ _ => ⟨⟨200, "ok"⟩, rfl⟩)
    (fun h => absurd h (by decide))

/-! ## C8: the identity is fetched once and reused -/

/-- The empty extension is clean. -/
theorem cleanExt_nil (aid : String) : cleanExt aid [] := by
  intro e he
  exact absurd he (List.not_mem_nil e)

/-- Clean extensions compose. -/
theorem cleanExt_append {aid : String} {l1 l2 : List Event}
    (h1 : cleanExt aid l1) (h2 : cleanExt aid l2) : cleanExt aid (l1 ++ l2) := by
  intro e he
  rcases List.mem_append.mp he with h | h
  exacts [h1 e h, h2 e h]

/-- A single post event with author `aid` is clean. -/
theorem cleanExt_post (aid : String) (p : WorklogPayload)
    (hp : p.authorAccountId = aid) : cleanExt aid [Event.postWorklog p] := by
  intro e he
  have he2 : e = Event.postWorklog p := List.mem_singleton.mp he
  subst he2
  refine ⟨fun h => Event.noConfusion h, fun q hq => ?_⟩
  injection hq with h
  subst h
  exact hp

/-- A single search event is clean. -/
theorem cleanExt_search (aid : String) : cleanExt aid [Event.searchIssues] := by
  intro e he
  have he2 : e = Event.searchIssues := List.mem_singleton.mp he
  subst he2
  exact ⟨fun h => Event.noConfusion h, fun q hq => Event.noConfusion hq⟩

/-- A single issue-fetch event is clean. -/
theorem cleanExt_fetch (aid key : String) : cleanExt aid [Event.fetchIssue key] := by
  intro e he
  have he2 : e = Event.fetchIssue key := List.mem_singleton.mp he
  subst he2
  exact ⟨fun h => Event.noConfusion h, fun q hq => Event.noConfusion hq⟩

/-- Whatever the post's outcome, the context after `post_worklog` is the
old one with the posted payload appended. -/
theorem post_worklog_snd (env : Env) (st : St) (k id : String) (ts : Int)
    (d ws desc aid : String) :
    (post_worklog env st k id ts d ws desc aid).2
      = ⟨st.nIssue, st.nSearch, st.nPost + 1,
          st.trace ++ [Event.postWorklog ⟨k, id, ts, d, ws, desc, aid⟩]⟩ := by
  unfold post_worklog
  rcases henv : env.post st.nPost ⟨k, id, ts, d, ws, desc, aid⟩ with e | r
  · simp [henv]
  · simp only [henv]
    split <;> rfl

/-- `log_manual` only appends an issue fetch and possibly one post whose
author is the account id it was given. -/
theorem log_manual_ext (env : Env) (st : St) (key : String) (ts : Int)
    (d aid ws desc : String) :
    ∃ ext, (log_manual env st key ts d aid ws desc).2.trace = st.trace ++ ext ∧
      cleanExt aid ext := by
  unfold log_manual
  rcases henv : env.issue st.nIssue key with e | r
  · exact ⟨[Event.fetchIssue key], by simp [henv], cleanExt_fetch aid key⟩
  · simp only [henv]
    by_cases h : r.status ≠ 200
    · rw [if_pos h]
      exact ⟨[Event.fetchIssue key], by simp, cleanExt_fetch aid key⟩
    · rw [if_neg h]
      refine ⟨[Event.fetchIssue key] ++
        [Event.postWorklog ⟨key, r.id, ts, d, ws, desc, aid⟩], ?_,
        cleanExt_append (cleanExt_fetch aid key) (cleanExt_post aid _ rfl)⟩
      rw [post_worklog_snd]
      dsimp only
      rw [List.append_assoc]

/-- The automatic-mode loop only appends posts authored by its account id. -/
theorem autoLoop_ext (env : Env) (wd aid desc : String) (base rem : Int) (bsec : Nat) :
    ∀ (issues : List Issue) (st : St) (i : Nat) (acc : List String),
      ∃ ext, (autoLoop env wd aid desc base rem bsec st issues i acc).2.trace
          = st.trace ++ ext ∧ cleanExt aid ext := by
  intro issues
  induction issues with
  | nil => intro st i acc; exact ⟨[], by simp [autoLoop], cleanExt_nil aid⟩
  | cons iss rest ih =>
    intro st i acc
    rcases hp : post_worklog env st iss.key iss.id
      (base + if (i : Int) < rem then 1 else 0) wd (autoStartStr bsec base i) desc aid
      with ⟨res, st1⟩
    have hst1 : st1 = ⟨st.nIssue, st.nSearch, st.nPost + 1,
        st.trace ++ [Event.postWorklog ⟨iss.key, iss.id,
          base + if (i : Int) < rem then 1 else 0, wd,
          autoStartStr bsec base i, desc, aid⟩]⟩ := by
      have h2 := post_worklog_snd env st iss.key iss.id
        (base + if (i : Int) < rem then 1 else 0) wd (autoStartStr bsec base i) desc aid
      rw [hp] at h2
      exact h2
    cases res with
    | error e =>
      refine ⟨[Event.postWorklog ⟨iss.key, iss.id,
        base + if (i : Int) < rem then 1 else 0, wd,
        autoStartStr bsec base i, desc, aid⟩], ?_, cleanExt_post aid _ rfl⟩
      simp only [autoLoop, hp]
      rw [hst1]
    | ok r =>
      obtain ⟨ext2, htr2, hcl2⟩ := ih st1 (i + 1)
        (acc ++ [iss.key ++ ": " ++ env.roundH (base + if (i : Int) < rem then 1 else 0)
          ++ "h at " ++ autoStartStr bsec base i])
      refine ⟨[Event.postWorklog ⟨iss.key, iss.id,
        base + if (i : Int) < rem then 1 else 0, wd,
        autoStartStr bsec base i, desc, aid⟩] ++ ext2, ?_,
        cleanExt_append (cleanExt_post aid _ rfl) hcl2⟩
      simp only [autoLoop, hp]
      rw [htr2, hst1]
      dsimp only
      rw [List.append_assoc]

/-- Automatic-mode processing appends the search event and posts authored by
its account id, and nothing else. -/
theorem log_auto_ext (env : Env) (st : St) (wd aid : String) (total : Int)
    (ws desc : String) :
    ∃ ext, (log_auto_for_date env st wd aid total ws desc).2.trace = st.trace ++ ext ∧
      cleanExt aid ext := by
  unfold log_auto_for_date
  rcases hs : env.search st.nSearch with e | r
  · exact ⟨[Event.searchIssues], by simp [hs], cleanExt_search aid⟩
  · simp only [hs]
    by_cases h200 : r.status ≠ 200
    · rw [if_pos h200]
      exact ⟨[Event.searchIssues], by simp, cleanExt_search aid⟩
    · rw [if_neg h200]
      by_cases hemp : r.issues.isEmpty
      · rw [if_pos hemp]
        exact ⟨[Event.searchIssues], by simp, cleanExt_search aid⟩
      · rw [if_neg hemp]
        rcases hws : parseHMS ws with _ | b
        · simp only [hws]
          exact ⟨[Event.searchIssues], by simp, cleanExt_search aid⟩
        · simp only [hws]
          obtain ⟨ext2, htr2, hcl2⟩ := autoLoop_ext env wd aid desc
            (total.fdiv r.issues.length) (total.fmod r.issues.length) b r.issues
            ⟨st.nIssue, st.nSearch + 1, st.nPost, st.trace ++ [Event.searchIssues]⟩ 0 []
          refine ⟨[Event.searchIssues] ++ ext2, ?_,
            cleanExt_append (cleanExt_search aid) hcl2⟩
          rw [htr2]
          dsimp only
          rw [List.append_assoc]

/-- The per-date loop never fetches the identity, and every payload it posts
is authored by the account id it was handed. -/
theorem runDates_ext (env : Env) (req : LogRequest) (aid : String) :
    ∀ (dates : List String) (st : St) (acc : List String),
      ∃ ext, (runDates env req aid st dates acc).2.trace = st.trace ++ ext ∧
        cleanExt aid ext := by
  intro dates
  induction dates with
  | nil => intro st acc; exact ⟨[], by simp [runDates], cleanExt_nil aid⟩
  | cons d rest ih =>
    intro st acc
    by_cases hkey : req.issue_key ≠ "MGAP-X"
    · rcases hm : log_manual env st req.issue_key req.time_seconds d aid req.work_start
        req.description with ⟨res, st1⟩
      obtain ⟨ext1, htr1, hcl1⟩ := log_manual_ext env st req.issue_key req.time_seconds d aid
        req.work_start req.description
      rw [hm] at htr1
      cases res with
      | error e =>
        refine ⟨ext1, ?_, hcl1⟩
        simp only [runDates, if_pos hkey, hm]
        exact htr1
      | ok r =>
        obtain ⟨ext2, htr2, hcl2⟩ := ih st1 (acc ++ [d ++ ": " ++ r])
        refine ⟨ext1 ++ ext2, ?_, cleanExt_append hcl1 hcl2⟩
        simp only [runDates, if_pos hkey, hm]
        rw [htr2, htr1, List.append_assoc]
    · by_cases hts : req.time_seconds = 0
      · refine ⟨[], ?_, cleanExt_nil aid⟩
        simp only [runDates, if_neg hkey, if_pos hts]
        simp
      · rcases ha : log_auto_for_date env st d aid (env.secondsOfHours req.time_seconds)
          req.work_start req.description with ⟨res, st1⟩
        obtain ⟨ext1, htr1, hcl1⟩ := log_auto_ext env st d aid
          (env.secondsOfHours req.time_seconds) req.work_start req.description
        rw [ha] at htr1
        cases res with
        | error e =>
          refine ⟨ext1, ?_, hcl1⟩
          simp only [runDates, if_neg hkey, if_neg hts, ha]
          exact htr1
        | ok r =>
          obtain ⟨ext2, htr2, hcl2⟩ := ih st1 (acc ++ [d ++ ": " ++ r])
          refine ⟨ext1 ++ ext2, ?_, cleanExt_append hcl1 hcl2⟩
          simp only [runDates, if_neg hkey, if_neg hts, ha]
          rw [htr2, htr1, List.append_assoc]

/-- C8: whenever date resolution succeeds so that the orchestration proceeds,
the identity lookup happens exactly once — it is the first remote call, and
never recurs later in the run — and every worklog submitted during the run
carries the account id returned by that single lookup. -/
theorem c8_identity_once (env : Env) (today : Int) (parse : String → Option Int)
    (req : LogRequest) (dates : List String)
    (hres : resolve_dates today parse req.work_date req.date_range = Except.ok dates) :
    ∃ ext, (lt_run env today parse req).2.trace = Event.getAccount :: ext ∧
      (∀ e ∈ ext, e ≠ Event.getAccount) ∧
      (∀ g, env.myself = Except.ok g →
        ∀ p, Event.postWorklog p ∈ ext → p.authorAccountId = g.accountId) := by
  rw [lt_run_snd]
  rcases hacct : env.myself with e | g
  · refine ⟨[], ?_, by intro e2 he2; exact absurd he2 (List.not_mem_nil e2), ?_⟩
    · simp [ltBody, hres, get_account_id, hacct, st0]
    · intro g hg
      exact absurd hg (by simp)
  · by_cases hgs : g.status ≠ 200
    · refine ⟨[], ?_, by intro e2 he2; exact absurd he2 (List.not_mem_nil e2), ?_⟩
      · simp [ltBody, hres, get_account_id, hacct, st0, if_pos hgs]
      · intro g' hg' p hp
        exact absurd hp (List.not_mem_nil _)
    · obtain ⟨ext, htr, hcl⟩ := runDates_ext env req g.accountId dates
        ⟨0, 0, 0, [Event.getAccount]⟩ []
      refine ⟨ext, ?_, fun e2 he2 => (hcl e2 he2).1, ?_⟩
      · simp only [ltBody, hres, get_account_id, hacct, st0, List.nil_append,
          if_neg hgs, htr]
        rfl
      · intro g' hg' p hp
        injection hg' with h2
        rw [← h2]
        exact (hcl (Event.postWorklog p) hp).2 p rfl

/-- Witness for C8 with a concrete all-success run over five dates. -/
theorem c8_identity_once_witness :
    ∃ ext, (lt_run envAllOk 20088 noParse reqAuto).2.trace = Event.getAccount :: ext ∧
      (∀ e ∈ ext, e ≠ Event.getAccount) ∧
      (∀ g, envAllOk.myself = Except.ok g →
        ∀ p, Event.postWorklog p ∈ ext → p.authorAccountId = g.accountId) :=
  c8_identity_once envAllOk 20088 noParse reqAuto
    ["2024-12-30", "2024-12-31", "2025-01-01", "2025-01-02", "2025-01-03"] rfl

